import Mathlib

/-
Verification of the dim editor's line-buffer engine (dim.c).

This file shallowly embeds the row/line-store operations of dim.c:
rows carry raw characters, a tab-expanded render form and a per-render-
character highlight array; mutating operations recompute the derived
forms before returning, exactly as the C functions do.  C `int` values
are modelled as `Int`; C strings/byte buffers as `List Char`; the NUL
terminator that the C code relies on when scanning past the end of a
buffer is modelled by reading with default '\x00'.  The tree-sitter
highlight path is an external collaborator (out of scope); the model
covers the scanner strategy, which dim.c uses whenever no tree is
present.  Throttled/unthrottled reparse calls only rebuild the external
tree and per-row highlight, never the raw characters or the cursor, and
are modelled as no-ops of the scanner-mode state.
-/

set_option maxRecDepth 10000

namespace Dim

/-- Highlight classes, mirroring `enum editorHighlight` in dim.c
(HL_NORMAL, HL_COMMENT, HL_MLCOMMENT, HL_KEYWORD1, HL_KEYWORD2,
HL_STRING, HL_NUMBER, HL_MATCH). -/
inductive Hl where
  | normal
  | comment
  | mlcomment
  | keyword1
  | keyword2
  | str
  | number
  | hlMatch
deriving DecidableEq, Repr

/-- ASCII `isspace`, as used by the byte-oriented C code. -/
def c_isspace (c : Char) : Bool :=
  c == ' ' || c == '\t' || c == '\n' || c == '\x0b' || c == '\x0c' || c == '\r'

/-- ASCII `isdigit`. -/
def c_isdigit (c : Char) : Bool :=
  '0' ≤ c && c ≤ '9'

/-- ASCII `isalpha`. -/
def c_isalpha (c : Char) : Bool :=
  ('a' ≤ c && c ≤ 'z') || ('A' ≤ c && c ≤ 'Z')

/-- ASCII `isalnum`. -/
def c_isalnum (c : Char) : Bool :=
  c_isalpha c || c_isdigit c

/-- Separator characters list used by is_separator in dim.c. -/
def sepChars : List Char := ",.()+-/*=~%<>[];".toList

/-- is_separator from dim.c line 328: whitespace, NUL, or one of the
fixed punctuation set. -/
def is_separator (c : Char) : Bool :=
  c_isspace c || c == '\x00' || sepChars.contains c

/-- Character classes of dim.c's get_char_class
(CLASS_WHITESPACE, CLASS_PUNCTUATION, CLASS_WORD). -/
inductive CharClass where
  | whitespace
  | punctuation
  | word
deriving DecidableEq, Repr

/-- get_char_class from dim.c lines 895-901. -/
def get_char_class (c : Char) : CharClass :=
  if c_isspace c || c == '\x00' then CharClass.whitespace
  else if c_isalnum c || c == '_' then CharClass.word
  else CharClass.punctuation

/-- One entry of `struct editorSyntax` (dim.c lines 64-73) restricted to
the scanner strategy: keyword list (a trailing bar marks the secondary
class), single-line comment start, multi-line comment start/end, and
the two highlight flags.  The tree-sitter language pointer is an
external collaborator and is not part of the scanner model. -/
structure SyntaxProfile where
  keywords : List (List Char)
  scs : List Char
  mcs : List Char
  mce : List Char
  flagNumbers : Bool
  flagStrings : Bool
deriving DecidableEq, Repr

/-- C_HL_keywords from dim.c lines 137-142. -/
def C_HL_keywords : List (List Char) :=
  ["switch", "if", "while", "for", "break", "continue",
   "return", "else", "struct", "union", "typedef", "static",
   "enum", "class", "case", "int|", "long|", "double|",
   "float|", "char|", "unsigned|", "signed|", "void|", "#define",
   "#include"].map String.toList

/-- The C entry of HLDB (dim.c lines 157-164): line comment start is
a double slash, block comments are slash-star and star-slash, numbers
and strings highlighted. -/
def cProfile : SyntaxProfile :=
  { keywords := C_HL_keywords
    scs := "//".toList
    mcs := "/*".toList
    mce := "*/".toList
    flagNumbers := true
    flagStrings := true }

/-- One row of the buffer, mirroring `struct erow` (dim.c lines 75-83).
The C fields `size` and `rsize` are the lengths of `chars` and `render`;
`hl` holds one class per render character. -/
structure Erow where
  idx : Int
  chars : List Char
  render : List Char
  hl : List Hl
  hl_open_comment : Bool
deriving DecidableEq, Repr

instance : Inhabited Erow := ⟨⟨0, [], [], [], false⟩⟩

/-- DIM_TAB_STOP (dim.c line 28). -/
def DIM_TAB_STOP : Nat := 4

/-- The render-building loop of editorUpdateRow (dim.c lines 708-717):
a tab becomes one space followed by spaces until the render index is a
multiple of the tab stop, i.e. `DIM_TAB_STOP - idx % DIM_TAB_STOP`
spaces in total (between 1 and 4); every other character is copied. -/
def renderRow : List Char → Nat → List Char
  | [], _ => []
  | c :: cs, idx =>
    if c = '\t' then
      List.replicate (DIM_TAB_STOP - idx % DIM_TAB_STOP) ' ' ++
        renderRow cs (idx + (DIM_TAB_STOP - idx % DIM_TAB_STOP))
    else
      c :: renderRow cs (idx + 1)

/-- Total padding added by tab expansion: per tab, the width of its
expansion (1-4 spaces, up to the next multiple of the tab stop 4)
minus the single tab character it replaces. -/
def tabPad : List Char → Nat → Nat
  | [], _ => 0
  | c :: cs, idx =>
    if c = '\t' then
      (DIM_TAB_STOP - idx % DIM_TAB_STOP - 1) +
        tabPad cs (idx + (DIM_TAB_STOP - idx % DIM_TAB_STOP))
    else
      tabPad cs (idx + 1)

/-- strncmp(&s[i], p, p.length) == 0, for NUL-free p (all comment
delimiters and keywords of HLDB are NUL-free).  Reading past the end
of s yields the NUL terminator, which never matches. -/
def matchAt (s : List Char) (i : Nat) (p : List Char) : Bool :=
  (List.range p.length).all (fun k => s.getD (i + k) '\x00' == p.getD k '\x00')

/-- memset over a slice of the highlight array (out-of-range writes
cannot arise in the C code and are ignored here by List.set). -/
def setRange : List Hl → Nat → Nat → Hl → List Hl
  | l, _, 0, _ => l
  | l, start, n + 1, v => setRange (l.set start v) (start + 1) n v

/-- The keyword-matching for-loop of editorUpdateSyntax (dim.c lines
540-552): the first keyword whose body matches at i and is followed by
a separator wins; a trailing bar marks the secondary class and is not
part of the matched body.  Returns the matched length and the
secondary-class flag. -/
def findKw (render : List Char) (i : Nat) : List (List Char) → Option (Nat × Bool)
  | [] => none
  | k :: ks =>
    if matchAt render i (if k.getLast? == some '|' then k.dropLast else k) &&
        is_separator (render.getD (i + (if k.getLast? == some '|' then k.dropLast else k).length) '\x00') then
      some ((if k.getLast? == some '|' then k.dropLast else k).length, k.getLast? == some '|')
    else
      findKw render i ks

/-- The scanning while-loop of editorUpdateSyntax (dim.c lines 468-561),
with the loop state passed explicitly: position i, highlight array so
far, prev_sep, in_string (the quote character, NUL when outside a
string, exactly as the C int), in_comment.  Each iteration advances i
by at least one, so fuel = render length runs the loop to completion;
the result is the final highlight array and the final in_comment flag.
'\x27' is the single-quote character. -/
def scanLoop (syn : SyntaxProfile) (render : List Char) :
    Nat → Nat → List Hl → Bool → Char → Bool → List Hl × Bool
  | 0, _, hl, _, _, in_comment => (hl, in_comment)
  | fuel + 1, i, hl, prev_sep, in_string, in_comment =>
    if i < render.length then
      if !syn.scs.isEmpty && (in_string == '\x00') && !in_comment &&
          matchAt render i syn.scs then
        (setRange hl i (render.length - i) Hl.comment, in_comment)
      else if !syn.mcs.isEmpty && !syn.mce.isEmpty && (in_string == '\x00') &&
          in_comment then
        (if matchAt render i syn.mce then
          scanLoop syn render fuel (i + syn.mce.length)
            (setRange (hl.set i Hl.comment) i syn.mce.length Hl.mlcomment)
            true '\x00' false
        else
          scanLoop syn render fuel (i + 1) (hl.set i Hl.comment)
            prev_sep in_string true)
      else if !syn.mcs.isEmpty && !syn.mce.isEmpty && (in_string == '\x00') &&
          matchAt render i syn.mcs then
        scanLoop syn render fuel (i + syn.mcs.length)
          (setRange hl i syn.mcs.length Hl.comment) prev_sep in_string true
      else if syn.flagStrings && (in_string != '\x00') then
        (if (render.getD i '\x00' == '\\') && decide (i + 1 < render.length) then
          scanLoop syn render fuel (i + 2) ((hl.set i Hl.str).set (i + 1) Hl.str)
            prev_sep in_string in_comment
        else
          scanLoop syn render fuel (i + 1) (hl.set i Hl.str) true
            (if render.getD i '\x00' == in_string then '\x00' else in_string)
            in_comment)
      else if syn.flagStrings &&
          ((render.getD i '\x00' == '"') || (render.getD i '\x00' == '\x27')) then
        scanLoop syn render fuel (i + 1) (hl.set i Hl.str) prev_sep
          (render.getD i '\x00') in_comment
      else if syn.flagNumbers &&
          ((c_isdigit (render.getD i '\x00') &&
              (prev_sep ||
                ((if 0 < i then hl.getD (i - 1) Hl.normal else Hl.normal) == Hl.number))) ||
            ((render.getD i '\x00' == '.') &&
              ((if 0 < i then hl.getD (i - 1) Hl.normal else Hl.normal) == Hl.number))) then
        scanLoop syn render fuel (i + 1) (hl.set i Hl.number) false in_string in_comment
      else
        match (if prev_sep then findKw render i syn.keywords else none) with
        | some kres =>
          scanLoop syn render fuel (i + kres.1)
            (setRange hl i kres.1 (if kres.2 then Hl.keyword2 else Hl.keyword1))
            false in_string in_comment
        | none =>
          scanLoop syn render fuel (i + 1) hl (is_separator (render.getD i '\x00'))
            in_string in_comment
    else (hl, in_comment)

/-- The in_comment seed of editorUpdateSyntax (dim.c line 464): true iff
the previous row exists and ended inside an open multi-line comment.
The C code indexes via row->idx, which the insert/delete renumbering
keeps equal to the row's position; the model passes the position. -/
def hlOpenAt (rows : List Erow) (i : Nat) : Bool :=
  if i = 0 then false
  else
    match rows[i - 1]? with
    | some r => r.hl_open_comment
    | none => false

/-- editorUpdateSyntax (dim.c lines 445-568) applied at row position i,
including the forward cascade of lines 563-566: the highlight array is
reallocated to the render length and filled; with no syntax profile the
function returns right after zeroing it (and leaves hl_open_comment
alone); if the row's trailing comment state changed and the next row is
below the caller's row count, the next row is rescanned.  nrows is
E.numrows at call time (editorInsertRow calls this before incrementing
E.numrows).  The cascade advances the position each step, so fuel =
row-list length always suffices. -/
def updateSyntaxFrom (syn : Option SyntaxProfile) (nrows : Int) :
    Nat → List Erow → Nat → List Erow
  | 0, rows, _ => rows
  | fuel + 1, rows, i =>
    match rows[i]? with
    | none => rows
    | some row =>
      match syn with
      | none => rows.set i { row with hl := List.replicate row.render.length Hl.normal }
      | some s =>
        if (row.hl_open_comment !=
              (scanLoop s row.render row.render.length 0
                (List.replicate row.render.length Hl.normal) true '\x00'
                (hlOpenAt rows i)).2) &&
            decide ((i : Int) + 1 < nrows) then
          updateSyntaxFrom syn nrows fuel
            (rows.set i
              { row with
                hl := (scanLoop s row.render row.render.length 0
                  (List.replicate row.render.length Hl.normal) true '\x00'
                  (hlOpenAt rows i)).1
                hl_open_comment := (scanLoop s row.render row.render.length 0
                  (List.replicate row.render.length Hl.normal) true '\x00'
                  (hlOpenAt rows i)).2 })
            (i + 1)
        else
          rows.set i
            { row with
              hl := (scanLoop s row.render row.render.length 0
                (List.replicate row.render.length Hl.normal) true '\x00'
                (hlOpenAt rows i)).1
              hl_open_comment := (scanLoop s row.render row.render.length 0
                (List.replicate row.render.length Hl.normal) true '\x00'
                (hlOpenAt rows i)).2 }

/-- editorUpdateRow (dim.c lines 698-727) at row position i: rebuild the
render form from the raw characters, then recompute highlight (scanner
strategy; the tree-sitter branch is external).  nrows is E.numrows at
call time. -/
def editorUpdateRow (syn : Option SyntaxProfile) (nrows : Int)
    (rows : List Erow) (i : Nat) : List Erow :=
  match rows[i]? with
  | none => rows
  | some row =>
    updateSyntaxFrom syn nrows (rows.length)
      (rows.set i { row with render := renderRow row.chars 0 }) i

/-- markpt (dim.c lines 85-88). -/
structure Markpt where
  x : Int
  y : Int
deriving DecidableEq, Repr

/-- undoState (dim.c lines 90-95); numrows is the length of row. -/
structure UndoSnap where
  row : List Erow
  cx : Int
  cy : Int
deriving DecidableEq, Repr

/-- The parts of `struct editorConfig` (dim.c lines 97-130) that the
row, cursor, undo and status-message operations read or write.  The
undo stack's most recent snapshot is the head (the C array stores it at
the end).  Viewport offsets, search state, mode and clipboard do not
participate in the verified operations. -/
structure EditorConfig where
  cx : Int
  cy : Int
  rows : List Erow
  dirty : Int
  statusmsg : String
  profile : Option SyntaxProfile
  undo_stack : List UndoSnap
deriving DecidableEq, Repr

/-- The state right after initEditor (dim.c lines 2452-2485). -/
def initEditor : EditorConfig :=
  { cx := 0
    cy := 0
    rows := []
    dirty := 0
    statusmsg := ""
    profile := none
    undo_stack := [] }

/-- Row lookup by a C int index (negative indices never dereference). -/
def rowsGet (rows : List Erow) (y : Int) : Option Erow :=
  if y < 0 then none else rows[y.toNat]?

/-- row->size for the row at index y (the C code only reads sizes of
rows it knows to exist). -/
def rowSize (rows : List Erow) (y : Int) : Int :=
  match rowsGet rows y with
  | some r => (r.chars.length : Int)
  | none => 0

/-- chars[x] with a C int index; the NUL terminator stands in for any
read at or past the end. -/
def charAtI (l : List Char) (x : Int) : Char :=
  if x < 0 then '\x00' else l.getD x.toNat '\x00'

/-- editorInsertRow (dim.c lines 729-753): out-of-range at is a silent
no-op; otherwise the new row is spliced in, the following rows are
renumbered (idx++), the new row's render/highlight are computed (with
E.numrows still the old count), and numrows/dirty are bumped. -/
def editorInsertRow (st : EditorConfig) (atI : Int) (s : List Char) : EditorConfig :=
  if atI < 0 ∨ atI > (st.rows.length : Int) then st
  else
    { st with
      rows := editorUpdateRow st.profile (st.rows.length : Int)
        (st.rows.take atI.toNat ++
          { idx := atI, chars := s, render := [], hl := [], hl_open_comment := false } ::
            (st.rows.drop atI.toNat).map (fun r => { r with idx := r.idx + 1 }))
        atI.toNat
      dirty := st.dirty + 1 }

/-- editorDelRow (dim.c lines 761-770): out-of-range at is a silent
no-op; otherwise the row is removed, later rows renumbered (idx--), and
dirty bumped.  No render/highlight recomputation happens here. -/
def editorDelRow (st : EditorConfig) (atI : Int) : EditorConfig :=
  if atI < 0 ∨ atI ≥ (st.rows.length : Int) then st
  else
    { st with
      rows := st.rows.take atI.toNat ++
        (st.rows.drop (atI.toNat + 1)).map (fun r => { r with idx := r.idx - 1 })
      dirty := st.dirty + 1 }

/-- The loop body of editorDelRows (dim.c lines 772-778): delete at
position start, (endI - start) times. -/
def delRowsGo (start : Int) : Nat → EditorConfig → EditorConfig
  | 0, st => st
  | n + 1, st => delRowsGo start n (editorDelRow st start)

/-- editorDelRows (dim.c lines 772-778). -/
def editorDelRows (st : EditorConfig) (start endI : Int) : EditorConfig :=
  delRowsGo start (endI - start).toNat st

/-- The common tail of every character-level row mutation in dim.c
(editorRowInsertChar / AppendString / DelChar / DelSpan): install the
new raw characters for the row at position y, re-run editorUpdateRow on
it, and bump dirty.  (The tree-sitter reparse those functions may also
trigger only touches the external tree and per-row highlight.) -/
def rowCharsEdit (st : EditorConfig) (y : Int) (row : Erow) (chars1 : List Char) :
    EditorConfig :=
  { st with
    rows := editorUpdateRow st.profile (st.rows.length : Int)
      (st.rows.set y.toNat { row with chars := chars1 }) y.toNat
    dirty := st.dirty + 1 }

/-- editorRowInsertChar (dim.c lines 832-844) on the row at position y
(the C function receives &E.row[y]): an out-of-range column clamps to
the row end. -/
def editorRowInsertChar (st : EditorConfig) (y atI : Int) (c : Char) : EditorConfig :=
  match rowsGet st.rows y with
  | none => st
  | some row =>
    rowCharsEdit st y row
      (row.chars.take (if atI < 0 ∨ atI > (row.chars.length : Int) then
          row.chars.length else atI.toNat) ++
        c :: row.chars.drop (if atI < 0 ∨ atI > (row.chars.length : Int) then
          row.chars.length else atI.toNat))

/-- editorRowAppendString (dim.c lines 846-856) on the row at position y. -/
def editorRowAppendString (st : EditorConfig) (y : Int) (s : List Char) : EditorConfig :=
  match rowsGet st.rows y with
  | none => st
  | some row => rowCharsEdit st y row (row.chars ++ s)

/-- editorRowDelChar (dim.c lines 858-868) on the row at position y:
an out-of-range column is a no-op. -/
def editorRowDelChar (st : EditorConfig) (y atI : Int) : EditorConfig :=
  match rowsGet st.rows y with
  | none => st
  | some row =>
    if atI < 0 ∨ atI ≥ (row.chars.length : Int) then st
    else rowCharsEdit st y row
      (row.chars.take atI.toNat ++ row.chars.drop (atI.toNat + 1))

/-- editorRowDelSpan (dim.c lines 870-881) on the row at position y:
removes chars[start, end) after validating the range. -/
def editorRowDelSpan (st : EditorConfig) (y start endI : Int) : EditorConfig :=
  match rowsGet st.rows y with
  | none => st
  | some row =>
    if start ≥ endI ∨ start < 0 ∨ endI > (row.chars.length : Int) then st
    else rowCharsEdit st y row
      (row.chars.take start.toNat ++ row.chars.drop endI.toNat)

/-- editorDelSpan (dim.c lines 780-830), the visual-mode span delete:
normalizes the two marks, trims the last line's head and the first
line's tail (or deletes them whole) and removes the interior lines for
a multi-line span; a single-line span removes the sub-range, except
that a span covering the whole line takes the editorDelRow(end_x)
branch exactly as written in the source (end_x, a column, is passed as
the row index).  Finally the cursor moves to the span start. -/
def editorDelSpan (st : EditorConfig) (a b : Markpt) : EditorConfig :=
  let start_y := if a.y < b.y then a.y else if a.y > b.y then b.y else a.y
  let start_x := if a.y < b.y then a.x else if a.y > b.y then b.x
    else if a.x < b.x then a.x else b.x
  let end_y := if a.y < b.y then b.y else if a.y > b.y then a.y else b.y
  let end_x := if a.y < b.y then b.x else if a.y > b.y then a.x
    else if a.x < b.x then b.x else a.x
  let st1 :=
    if start_y < end_y then
      let stA :=
        if end_x < rowSize st.rows end_y - 1 then
          editorRowDelSpan st end_y 0 (end_x + 1)
        else
          editorDelRow st end_y
      let stB := editorDelRows stA (start_y + 1) end_y
      if start_x > 0 then
        editorRowDelSpan stB start_y start_x (rowSize stB.rows start_y)
      else
        editorDelRow stB start_y
    else
      if start_x = 0 ∧ end_x = rowSize st.rows start_y - 1 then
        editorDelRow st end_x
      else
        editorRowDelSpan st start_y start_x (end_x + 1)
  { st1 with cx := start_x, cy := start_y }

/-- The buffer mutations of dim.c's Line Store layer: character
insert/delete, in-row span delete, row insert/delete, append, and the
visual span delete. -/
inductive Mutation where
  | insRow (atI : Int) (s : List Char)
  | delRow (atI : Int)
  | insChar (y atI : Int) (c : Char)
  | delChar (y atI : Int)
  | delSpanRow (y start endI : Int)
  | appendStr (y : Int) (s : List Char)
  | delSpanM (a b : Markpt)
deriving DecidableEq, Repr

/-- Dispatch one buffer mutation. -/
def applyMutation (st : EditorConfig) : Mutation → EditorConfig
  | Mutation.insRow atI s => editorInsertRow st atI s
  | Mutation.delRow atI => editorDelRow st atI
  | Mutation.insChar y atI c => editorRowInsertChar st y atI c
  | Mutation.delChar y atI => editorRowDelChar st y atI
  | Mutation.delSpanRow y s e => editorRowDelSpan st y s e
  | Mutation.appendStr y s => editorRowAppendString st y s
  | Mutation.delSpanM a b => editorDelSpan st a b

/-- A sequence of buffer mutations. -/
def applyMutations (st : EditorConfig) (ms : List Mutation) : EditorConfig :=
  ms.foldl applyMutation st

/-- editorPushUndoState (dim.c lines 1366-1382): editorCopyRows deep-
copies every row (chars, render, hl, idx, sizes, comment flag) together
with the cursor; in the value model the snapshot is the current row
list and cursor.  The stack grows by one (amortized-doubling capacity
is a C allocation detail). -/
def editorPushUndoState (st : EditorConfig) : EditorConfig :=
  { st with undo_stack := { row := st.rows, cx := st.cx, cy := st.cy } :: st.undo_stack }

/-- editorUndo (dim.c lines 1384-1405): with an empty stack, set the
status message and change nothing else; otherwise pop the latest
snapshot, install its rows and cursor, and set dirty to 1.  The closing
editorReparseTreeSitter call only rebuilds the external tree/highlight
(a no-op on this scanner-mode state). -/
def editorUndo (st : EditorConfig) : EditorConfig :=
  match st.undo_stack with
  | [] => { st with statusmsg := "Nothing to undo" }
  | snap :: rest =>
    { st with
      rows := snap.row
      cx := snap.cx
      cy := snap.cy
      dirty := 1
      undo_stack := rest }

/-- editorRowsToString (dim.c lines 1017-1034): every row's raw
characters followed by a newline, last row included. -/
def editorRowsToString : List Erow → List Char
  | [] => []
  | r :: rs => r.chars ++ '\n' :: editorRowsToString rs

/-- POSIX getline chunking as used by editorOpenFile: each returned
chunk includes its terminating newline; a final chunk without a newline
is returned as-is; an empty file yields no chunks. -/
def splitFileLines : List Char → List (List Char)
  | [] => []
  | c :: cs =>
    if c = '\n' then ['\n'] :: splitFileLines cs
    else
      match splitFileLines cs with
      | [] => [[c]]
      | l :: ls => (c :: l) :: ls

/-- The trailing-newline normalization of editorOpenFile (dim.c lines
1070-1072): while the line ends in a newline or carriage return, drop
that character. -/
def stripTrailingNL (l : List Char) : List Char :=
  (l.reverse.dropWhile (fun c => c == '\n' || c == '\r')).reverse

/-- editorClearBuffer (dim.c lines 1036-1049) on the modelled fields. -/
def editorClearBuffer (st : EditorConfig) : EditorConfig :=
  { st with rows := [], cx := 0, cy := 0, dirty := 0 }

/-- editorOpenFile (dim.c lines 1051-1079) on a successfully read file
content: clear the buffer, then for each getline chunk strip trailing
newline/carriage-return characters and append it as a row; dirty resets
to 0.  (Filename bookkeeping and syntax-profile selection only touch
fields outside the row contents.) -/
def editorOpenFile (st : EditorConfig) (content : List Char) : EditorConfig :=
  { (splitFileLines content).foldl
      (fun s l => editorInsertRow s (s.rows.length : Int) (stripTrailingNL l))
      (editorClearBuffer st) with
    dirty := 0 }

/-- The same-class advance loop shared by getStartOfWord/getEndOfWord
and the whitespace-skip loop of editorMoveWordForward: move right while
inside the row and the class at the cursor equals cls.  Each step adds
one, so fuel = row length + 1 completes the loop. -/
def classRun (chars : List Char) (cls : CharClass) : Nat → Int → Int
  | 0, x => x
  | fuel + 1, x =>
    if x < (chars.length : Int) ∧ get_char_class (charAtI chars x) = cls then
      classRun chars cls fuel (x + 1)
    else x

/-- getEndOfWord (dim.c lines 916-927). -/
def getEndOfWord (x : Int) (chars : List Char) : Int :=
  if x ≥ (chars.length : Int) then x
  else classRun chars (get_char_class (charAtI chars x)) (chars.length + 1) x

/-- The leading-whitespace skip on the next line in editorMoveWordForward
(dim.c lines 964-965), which tests isspace rather than the class. -/
def skipSpacesFrom (chars : List Char) : Nat → Int → Int
  | 0, x => x
  | fuel + 1, x =>
    if x < (chars.length : Int) ∧ c_isspace (charAtI chars x) then
      skipSpacesFrom chars fuel (x + 1)
    else x

/-- editorMoveWordForward (dim.c lines 943-967): advance to the end of
the current same-class run, skip a whitespace run, and if that passes
the end of the line (and a next line exists) move to the next line's
first non-whitespace column. -/
def editorMoveWordForward (st : EditorConfig) : EditorConfig :=
  match rowsGet st.rows st.cy with
  | none => st
  | some row =>
    if classRun row.chars CharClass.whitespace (row.chars.length + 1)
          (getEndOfWord st.cx row.chars) ≥ (row.chars.length : Int) ∧
        st.cy < (st.rows.length : Int) - 1 then
      match rowsGet st.rows (st.cy + 1) with
      | none => { st with cy := st.cy + 1, cx := 0 }
      | some row2 =>
        { st with
          cy := st.cy + 1
          cx := skipSpacesFrom row2.chars (row2.chars.length + 1) 0 }
    else
      { st with
        cx := classRun row.chars CharClass.whitespace (row.chars.length + 1)
          (getEndOfWord st.cx row.chars) }

/-- The bracket table of editorJumpToMatchingBrace (dim.c lines
1861-1888): the complementary character and the scan direction.
'\x7b' and '\x7d' are the curly braces. -/
def braceTarget (c : Char) : Option (Char × Int) :=
  if c = '\x7b' then some ('\x7d', 1)
  else if c = '\x7d' then some ('\x7b', -1)
  else if c = '(' then some (')', 1)
  else if c = ')' then some ('(', -1)
  else if c = '[' then some (']', 1)
  else if c = ']' then some ('[', -1)
  else none

/-- The scanning loop of editorJumpToMatchingBrace (dim.c lines
1890-1929): walk x by the direction, wrapping across line boundaries,
counting nesting depth; the same character as the start increments
depth, the target decrements it; depth zero is the match.  Running off
either buffer end yields none (cursor unmoved).  Every iteration
either consumes a cell or crosses a row, so fuel = total characters +
row count + 1 runs the loop to completion. -/
def braceScan (rows : List Erow) (cur tgt : Char) (dir : Int) :
    Nat → Int → Int → Int → Option (Int × Int)
  | 0, _, _, _ => none
  | fuel + 1, depth, x, y =>
    if y < 0 ∨ (rows.length : Int) ≤ y then none
    else
      match rowsGet rows y with
      | none => none
      | some srow =>
        if dir = 1 ∧ (srow.chars.length : Int) ≤ x then
          braceScan rows cur tgt dir fuel depth 0 (y + 1)
        else if dir ≠ 1 ∧ x < 0 then
          braceScan rows cur tgt dir fuel depth
            (if 0 ≤ y - 1 then rowSize rows (y - 1) - 1 else x) (y - 1)
        else
          if charAtI srow.chars x = tgt then
            if depth - 1 = 0 then some (x, y)
            else braceScan rows cur tgt dir fuel (depth - 1) (x + dir) y
          else if charAtI srow.chars x = cur then
            braceScan rows cur tgt dir fuel (depth + 1) (x + dir) y
          else
            braceScan rows cur tgt dir fuel depth (x + dir) y

/-- Fuel bound for braceScan: one per character plus one per row-
boundary crossing, plus one. -/
def braceFuel (rows : List Erow) : Nat :=
  rows.foldl (fun a r => a + r.chars.length + 1) 1

/-- editorJumpToMatchingBrace (dim.c lines 1847-1930). -/
def editorJumpToMatchingBrace (st : EditorConfig) : EditorConfig :=
  if (st.rows.length : Int) ≤ st.cy then st
  else
    match rowsGet st.rows st.cy with
    | none => st
    | some row =>
      if (row.chars.length : Int) ≤ st.cx then st
      else
        match braceTarget (charAtI row.chars st.cx) with
        | none => st
        | some td =>
          match braceScan st.rows (charAtI row.chars st.cx) td.1 td.2
              (braceFuel st.rows) 1 (st.cx + td.2) st.cy with
          | none => st
          | some xy => { st with cx := xy.1, cy := xy.2 }

/-- Row render/highlight consistency: the render form is exactly what
editorUpdateRow computes from the raw characters, and the highlight
array has one entry per render character. -/
def WFrow (r : Erow) : Prop :=
  r.render = renderRow r.chars 0 ∧ r.hl.length = r.render.length

/-- Every row of the buffer is render/highlight consistent. -/
def WF (st : EditorConfig) : Prop :=
  ∀ (j : Nat) (r : Erow), st.rows[j]? = some r → WFrow r

/- Concrete fixtures for the testable-property claims.  Each claim has
its own fixtures. -/

/-- First line of the C4 fixture. -/
def lineC4a : List Char := "// comment".toList

/-- Second line of the C4 fixture. -/
def lineC4b : List Char := "int x = 5;".toList

/-- Two-line C-profile buffer of C4. -/
def stC4 : EditorConfig :=
  editorInsertRow
    (editorInsertRow { initEditor with profile := some cProfile } 0 lineC4a)
    1 lineC4b

/-- One-line buffer of C5. -/
def lineC5 : List Char := "a(b(c)d)e".toList

/-- C5 state with the cursor on the first opening parenthesis. -/
def stC5 : EditorConfig :=
  { editorInsertRow initEditor 0 lineC5 with cx := 1, cy := 0 }

/-- C5 state with the cursor on the inner opening parenthesis. -/
def stC5b : EditorConfig :=
  { editorInsertRow initEditor 0 lineC5 with cx := 3, cy := 0 }

/-- First line of the C6 fixture. -/
def lineC6a : List Char := "abc".toList

/-- Second line of the C6 fixture. -/
def lineC6b : List Char := "x".toList

/-- Two-line buffer of C6. -/
def stC6 : EditorConfig :=
  editorInsertRow (editorInsertRow initEditor 0 lineC6a) 1 lineC6b

/-- One-line buffer of C7. -/
def lineC7 : List Char := "abcdef".toList

/-- C7 state. -/
def stC7 : EditorConfig := editorInsertRow initEditor 0 lineC7

/-- One-line buffer of C8. -/
def lineC8 : List Char := "foo  bar.baz".toList

/-- C8 state, cursor at column 0 of row 0. -/
def stC8 : EditorConfig := editorInsertRow initEditor 0 lineC8

/-- Fixture line for the C3 witness. -/
def lineC3a : List Char := "abc".toList

/-- Second fixture line for the C3 witness. -/
def lineC3b : List Char := "d e".toList

/-- Two-line buffer for the C3 witness. -/
def stC3 : EditorConfig :=
  editorInsertRow (editorInsertRow initEditor 0 lineC3a) 1 lineC3b

/-- Mutation list for the C1 witness: insert a row containing a tab. -/
def msC1 : List Mutation := [Mutation.insRow 0 ('a' :: '\t' :: ['b'])]

/- ------------------------------------------------------------------ -/
/- Theorems. -/
/- ------------------------------------------------------------------ -/

/-- C7: on a one-line buffer containing "abcdef", deleting the visual
span from (row 0, column 1) to (row 0, column 3) yields the single line
"aef" with the cursor at row 0, column 1. -/
theorem c7_visual_delete :
    ((editorDelSpan stC7 { x := 1, y := 0 } { x := 3, y := 0 }).rows.map (fun r => r.chars)
        = [['a', 'e', 'f']]) ∧
    (editorDelSpan stC7 { x := 1, y := 0 } { x := 3, y := 0 }).cx = 1 ∧
    (editorDelSpan stC7 { x := 1, y := 0 } { x := 3, y := 0 }).cy = 0 := by
  decide

/-- C5 counterexample: with the cursor on the first opening parenthesis
(index 1) of "a(b(c)d)e", bracket matching moves the cursor to column
7, not 8 as the claim states (the outer closing parenthesis sits at
index 7). -/
theorem c5_counterexample :
    (editorJumpToMatchingBrace stC5).cx = 7 ∧ ((7 : Int) = 8 → False) := by
  decide

/-- C5 amended: on "a(b(c)d)e", matching from the first opening
parenthesis (index 1) jumps to index 7 (the outer closing parenthesis),
and matching from the inner opening parenthesis (index 3) jumps to
index 5. -/
theorem c5_amended :
    (editorJumpToMatchingBrace stC5).cx = 7 ∧
    (editorJumpToMatchingBrace stC5).cy = 0 ∧
    (editorJumpToMatchingBrace stC5b).cx = 5 ∧
    (editorJumpToMatchingBrace stC5b).cy = 0 := by
  decide

/-- C8 counterexample: on "foo  bar.baz" from column 0, the second
move-word-forward lands on column 8 (the dot), not column 9 as the
claim states. -/
theorem c8_counterexample :
    (editorMoveWordForward (editorMoveWordForward stC8)).cx = 8 ∧
    ((8 : Int) = 9 → False) := by
  decide

/-- C8 amended: on "foo  bar.baz" from column 0, one move-word-forward
lands at column 5 (the b of bar) and a second lands at column 8 (the
dot, a punctuation run), under the whitespace/word/punctuation scheme. -/
theorem c8_amended :
    (editorMoveWordForward stC8).cx = 5 ∧
    (editorMoveWordForward stC8).cy = 0 ∧
    (editorMoveWordForward (editorMoveWordForward stC8)).cx = 8 ∧
    (editorMoveWordForward (editorMoveWordForward stC8)).cy = 0 := by
  decide

/-- C6: evaluation of the code at the failing input.  On the buffer
["abc", "x"], deleting the single-line span that covers exactly all of
row 1 (columns 0-0 of "x") leaves ["x"]: the code executes
editorDelRow(end_x) = editorDelRow(0) and removes row 0 ("abc") instead
of row 1, contradicting the claim that exactly the covered row is
removed and the others are unchanged. -/
theorem c6_code_bug_eval :
    ((editorDelSpan stC6 { x := 0, y := 1 } { x := 0, y := 1 }).rows.map (fun r => r.chars)
        = [['x']]) ∧
    (stC6.rows.map (fun r => r.chars) = [['a', 'b', 'c'], ['x']]) ∧
    (((editorDelSpan stC6 { x := 0, y := 1 } { x := 0, y := 1 }).rows.map (fun r => r.chars)
        = [['a', 'b', 'c']]) → False) := by
  decide

/-- C4 counterexample: in the C profile the keyword table entry for int
carries the secondary-class bar, so on "int x = 5;" the scanner tags
the i of int with the secondary keyword class, not the primary class
the claim names. -/
theorem c4_counterexample :
    (stC4.rows.getD 1 default).hl.getD 0 Hl.normal = Hl.keyword2 ∧
    (Hl.keyword2 = Hl.keyword1 → False) := by
  decide

/-- C4 amended: the scanner highlighter on the two-line C-profile buffer
tags every rendered character of "// comment" with the comment class,
and on "int x = 5;" tags the characters of int with the secondary
keyword class and the 5 with the number class. -/
theorem c4_amended :
    (stC4.rows.getD 0 default).hl = List.replicate 10 Hl.comment ∧
    (stC4.rows.getD 1 default).hl =
      [Hl.keyword2, Hl.keyword2, Hl.keyword2, Hl.normal, Hl.normal,
       Hl.normal, Hl.normal, Hl.normal, Hl.number, Hl.normal] := by
  decide

/-- C9: undo on an empty undo stack reports the "Nothing to undo"
status message and leaves rows, cursor, dirty counter and undo stack
unchanged. -/
theorem c9_undo_empty_noop (st : EditorConfig) (h : st.undo_stack = []) :
    (editorUndo st).statusmsg = "Nothing to undo" ∧
    (editorUndo st).rows = st.rows ∧
    (editorUndo st).cx = st.cx ∧
    (editorUndo st).cy = st.cy ∧
    (editorUndo st).dirty = st.dirty ∧
    (editorUndo st).undo_stack = st.undo_stack := by
  simp [editorUndo, h]

/-- C9 witness: the freshly initialized editor has an empty undo stack
and undo on it behaves as c9_undo_empty_noop states. -/
theorem c9_witness :
    initEditor.undo_stack = [] ∧
    ((editorUndo initEditor).statusmsg = "Nothing to undo" ∧
     (editorUndo initEditor).rows = initEditor.rows ∧
     (editorUndo initEditor).cx = initEditor.cx ∧
     (editorUndo initEditor).cy = initEditor.cy ∧
     (editorUndo initEditor).dirty = initEditor.dirty ∧
     (editorUndo initEditor).undo_stack = initEditor.undo_stack) :=
  ⟨rfl, c9_undo_empty_noop initEditor rfl⟩

/-- C10: editorInsertRow with an index below 0 or above the row count,
and editorDelRow with an index below 0 or at/above the row count,
return the state completely unchanged (rows, numbering, dirty counter
and all). -/
theorem c10_row_index_guard (st : EditorConfig) (a1 a2 : Int) (s : List Char)
    (h1 : a1 < 0 ∨ a1 > (st.rows.length : Int))
    (h2 : a2 < 0 ∨ a2 ≥ (st.rows.length : Int)) :
    editorInsertRow st a1 s = st ∧ editorDelRow st a2 = st := by
  constructor
  · rw [editorInsertRow, if_pos h1]
  · rw [editorDelRow, if_pos h2]

/-- C10 witness: inserting at index -1 and deleting at index 0 in the
empty initial buffer are both no-ops. -/
theorem c10_witness :
    (((-1 : Int) < 0 ∨ (-1 : Int) > (initEditor.rows.length : Int)) ∧
      ((0 : Int) < 0 ∨ (0 : Int) ≥ (initEditor.rows.length : Int))) ∧
    (editorInsertRow initEditor (-1) [] = initEditor ∧
      editorDelRow initEditor 0 = initEditor) :=
  ⟨⟨Or.inl (by decide), Or.inr (by decide)⟩,
    c10_row_index_guard initEditor (-1) 0 []
      (Or.inl (by decide)) (Or.inr (by decide))⟩

/-- editorInsertRow never touches the undo stack. -/
theorem stack_editorInsertRow (st : EditorConfig) (atI : Int) (s : List Char) :
    (editorInsertRow st atI s).undo_stack = st.undo_stack := by
  rw [editorInsertRow]; split <;> rfl

/-- editorDelRow never touches the undo stack. -/
theorem stack_editorDelRow (st : EditorConfig) (atI : Int) :
    (editorDelRow st atI).undo_stack = st.undo_stack := by
  rw [editorDelRow]; split <;> rfl

/-- delRowsGo never touches the undo stack. -/
theorem stack_delRowsGo (start : Int) :
    ∀ (n : Nat) (st : EditorConfig), (delRowsGo start n st).undo_stack = st.undo_stack := by
  intro n
  induction n with
  | zero => intro st; rfl
  | succ n ih => intro st; rw [delRowsGo, ih, stack_editorDelRow]

/-- editorDelRows never touches the undo stack. -/
theorem stack_editorDelRows (st : EditorConfig) (start endI : Int) :
    (editorDelRows st start endI).undo_stack = st.undo_stack :=
  stack_delRowsGo start _ st

/-- rowCharsEdit never touches the undo stack. -/
theorem stack_rowCharsEdit (st : EditorConfig) (y : Int) (row : Erow) (cs : List Char) :
    (rowCharsEdit st y row cs).undo_stack = st.undo_stack := rfl

/-- editorRowInsertChar never touches the undo stack. -/
theorem stack_editorRowInsertChar (st : EditorConfig) (y atI : Int) (c : Char) :
    (editorRowInsertChar st y atI c).undo_stack = st.undo_stack := by
  rw [editorRowInsertChar]; split <;> rfl

/-- editorRowAppendString never touches the undo stack. -/
theorem stack_editorRowAppendString (st : EditorConfig) (y : Int) (s : List Char) :
    (editorRowAppendString st y s).undo_stack = st.undo_stack := by
  rw [editorRowAppendString]; split <;> rfl

/-- editorRowDelChar never touches the undo stack. -/
theorem stack_editorRowDelChar (st : EditorConfig) (y atI : Int) :
    (editorRowDelChar st y atI).undo_stack = st.undo_stack := by
  rw [editorRowDelChar]; split
  · rfl
  · split <;> rfl

/-- editorRowDelSpan never touches the undo stack. -/
theorem stack_editorRowDelSpan (st : EditorConfig) (y start endI : Int) :
    (editorRowDelSpan st y start endI).undo_stack = st.undo_stack := by
  rw [editorRowDelSpan]; split
  · rfl
  · split <;> rfl

/-- editorDelSpan never touches the undo stack. -/
theorem stack_editorDelSpan (st : EditorConfig) (a b : Markpt) :
    (editorDelSpan st a b).undo_stack = st.undo_stack := by
  rw [editorDelSpan]
  dsimp only
  repeat' split
  all_goals
    simp only [stack_editorRowDelSpan, stack_editorDelRow, stack_editorDelRows]

/-- No buffer mutation touches the undo stack. -/
theorem stack_applyMutation (st : EditorConfig) (m : Mutation) :
    (applyMutation st m).undo_stack = st.undo_stack := by
  cases m <;>
    simp [applyMutation, stack_editorInsertRow, stack_editorDelRow,
      stack_editorRowInsertChar, stack_editorRowDelChar, stack_editorRowDelSpan,
      stack_editorRowAppendString, stack_editorDelSpan]

/-- No sequence of buffer mutations touches the undo stack. -/
theorem stack_applyMutations (ms : List Mutation) :
    ∀ st : EditorConfig, (applyMutations st ms).undo_stack = st.undo_stack := by
  induction ms with
  | nil => intro st; rfl
  | cons m ms ih =>
    intro st
    have h1 := ih (applyMutation st m)
    simp only [applyMutations, List.foldl_cons] at h1 ⊢
    rw [h1, stack_applyMutation]

/-- C2: pushing an undo snapshot, performing any sequence of buffer
mutations, then undoing, restores the entire row list (hence every
line's raw bytes and the number of lines) and the cursor position
exactly as they were at the time of the push.  The snapshot is a deep
copy: the later mutations cannot affect it, which is what this theorem
exercises by quantifying over all mutation sequences. -/
theorem c2_undo_restores (st : EditorConfig) (ms : List Mutation) :
    (editorUndo (applyMutations (editorPushUndoState st) ms)).rows = st.rows ∧
    (editorUndo (applyMutations (editorPushUndoState st) ms)).cx = st.cx ∧
    (editorUndo (applyMutations (editorPushUndoState st) ms)).cy = st.cy := by
  have h : (applyMutations (editorPushUndoState st) ms).undo_stack
      = { row := st.rows, cx := st.cx, cy := st.cy } :: st.undo_stack := by
    rw [stack_applyMutations]; rfl
  rw [editorUndo, h]
  exact ⟨rfl, rfl, rfl⟩

/-- Setting a list entry to the value it already holds is the identity. -/
theorem set_getElem?_eq {α : Type} :
    ∀ (l : List α) (i : Nat) (a : α), l[i]? = some a → l.set i a = l
  | [], i, a, h => by simp at h
  | x :: xs, 0, a, h => by
    rw [List.getElem?_cons_zero] at h
    cases h
    rfl
  | x :: xs, i + 1, a, h => by
    rw [List.getElem?_cons_succ] at h
    rw [List.set_cons_succ, set_getElem?_eq xs i a h]

/-- The highlight cascade never changes any row's raw characters. -/
theorem chars_updateSyntaxFrom (syn : Option SyntaxProfile) (nr : Int) :
    ∀ (fuel : Nat) (rows : List Erow) (i : Nat),
      (updateSyntaxFrom syn nr fuel rows i).map (fun r => r.chars)
        = rows.map (fun r => r.chars) := by
  intro fuel
  induction fuel with
  | zero => intro rows i; rfl
  | succ fuel ih =>
    intro rows i
    rw [updateSyntaxFrom]
    split
    · rfl
    · rename_i row hrow
      split
      · rename_i hsyn
        rw [List.map_set]
        exact set_getElem?_eq _ i _ (by rw [List.getElem?_map, hrow]; rfl)
      · rename_i s hsyn
        split
        · rw [ih, List.map_set]
          exact set_getElem?_eq _ i _ (by rw [List.getElem?_map, hrow]; rfl)
        · rw [List.map_set]
          exact set_getElem?_eq _ i _ (by rw [List.getElem?_map, hrow]; rfl)

/-- editorUpdateRow never changes any row's raw characters. -/
theorem chars_editorUpdateRow (syn : Option SyntaxProfile) (nr : Int)
    (rows : List Erow) (i : Nat) :
    (editorUpdateRow syn nr rows i).map (fun r => r.chars)
      = rows.map (fun r => r.chars) := by
  rw [editorUpdateRow]
  cases hrow : rows[i]? with
  | none => rfl
  | some row =>
    rw [chars_updateSyntaxFrom, List.map_set]
    exact set_getElem?_eq _ i _ (by rw [List.getElem?_map, hrow]; rfl)

/-- Inserting a row at the end of the buffer appends exactly its raw
characters to the raw-contents sequence. -/
theorem chars_editorInsertRow_append (st : EditorConfig) (s : List Char) :
    (editorInsertRow st (st.rows.length : Int) s).rows.map (fun r => r.chars)
      = st.rows.map (fun r => r.chars) ++ [s] := by
  rw [editorInsertRow, if_neg (by omega)]
  dsimp only
  rw [chars_editorUpdateRow]
  rw [Int.toNat_natCast, List.take_length, List.drop_length]
  simp

/-- Folding end-insertions of the stripped getline chunks produces
exactly the stripped chunks as the raw-contents sequence. -/
theorem chars_openFold (ls : List (List Char)) :
    ∀ st : EditorConfig,
      ((ls.foldl
          (fun s l => editorInsertRow s (s.rows.length : Int) (stripTrailingNL l))
          st).rows.map (fun r => r.chars))
        = st.rows.map (fun r => r.chars) ++ ls.map stripTrailingNL := by
  induction ls with
  | nil => intro st; simp
  | cons l ls ih =>
    intro st
    rw [List.foldl_cons, ih, chars_editorInsertRow_append]
    simp

/-- splitFileLines recovers a newline-free chunk followed by its
terminating newline. -/
theorem splitFileLines_line (l rest : List Char) (h : '\n' ∉ l) :
    splitFileLines (l ++ '\n' :: rest) = (l ++ ['\n']) :: splitFileLines rest := by
  induction l with
  | nil => simp [splitFileLines]
  | cons c cs ih =>
    have hc : ¬ c = '\n' := fun e => h (by rw [e]; exact List.mem_cons_self _ _)
    have hcs : '\n' ∉ cs := fun m => h (List.mem_cons_of_mem _ m)
    rw [List.cons_append]
    rw [splitFileLines]
    simp only [hc, if_false, ih hcs]
    simp

/-- splitFileLines of editorRowsToString gives back each row's raw
characters plus its terminating newline, provided the raw characters
are newline-free. -/
theorem split_editorRowsToString (rows : List Erow)
    (h : ∀ r ∈ rows, '\n' ∉ r.chars) :
    splitFileLines (editorRowsToString rows)
      = rows.map (fun r => r.chars ++ ['\n']) := by
  induction rows with
  | nil => rfl
  | cons r rs ih =>
    rw [editorRowsToString,
      splitFileLines_line _ _ (h r (List.mem_cons_self _ _)),
      ih (fun x hx => h x (List.mem_cons_of_mem _ hx))]
    rfl

/-- Stripping a chunk that ends in the serializer's newline equals
stripping the raw characters themselves. -/
theorem stripTrailingNL_newline (l : List Char) :
    stripTrailingNL (l ++ ['\n']) = stripTrailingNL l := by
  simp [stripTrailingNL, List.reverse_append, List.dropWhile_cons]

/-- C3: serializing any buffer of newline-free lines with
editorRowsToString and re-opening the result yields the same sequence
of lines up to the open operation's trailing-newline normalization
(each line with its trailing newline/carriage-return characters
stripped). -/
theorem c3_roundtrip (st : EditorConfig) (h : ∀ r ∈ st.rows, '\n' ∉ r.chars) :
    (editorOpenFile st (editorRowsToString st.rows)).rows.map (fun r => r.chars)
      = st.rows.map (fun r => stripTrailingNL r.chars) := by
  rw [editorOpenFile]
  dsimp only
  rw [split_editorRowsToString st.rows h, chars_openFold]
  simp [editorClearBuffer, stripTrailingNL_newline]

/-- C3 witness: the two-line buffer with rows "abc" and "d e" is
newline-free, and the round trip reproduces its stripped lines. -/
theorem c3_witness :
    (∀ r ∈ stC3.rows, '\n' ∉ r.chars) ∧
    (editorOpenFile stC3 (editorRowsToString stC3.rows)).rows.map (fun r => r.chars)
      = stC3.rows.map (fun r => stripTrailingNL r.chars) :=
  ⟨by decide, c3_roundtrip stC3 (by decide)⟩

/-- The render form of a line is as long as its raw form plus the tab-
expansion padding. -/
theorem length_renderRow :
    ∀ (cs : List Char) (idx : Nat),
      (renderRow cs idx).length = cs.length + tabPad cs idx := by
  intro cs
  induction cs with
  | nil => intro idx; rfl
  | cons c cs ih =>
    intro idx
    by_cases hc : c = '\t'
    · have hm : idx % DIM_TAB_STOP < DIM_TAB_STOP := Nat.mod_lt _ (by decide)
      rw [renderRow, tabPad, if_pos hc, if_pos hc]
      rw [List.length_append, List.length_replicate, List.length_cons, ih]
      have h4 : DIM_TAB_STOP = 4 := rfl
      omega
    · rw [renderRow, tabPad, if_neg hc, if_neg hc]
      rw [List.length_cons, List.length_cons, ih]
      omega

/-- setRange preserves the highlight array's length. -/
theorem setRange_length :
    ∀ (n : Nat) (l : List Hl) (start : Nat) (v : Hl),
      (setRange l start n v).length = l.length := by
  intro n
  induction n with
  | zero => intro l start v; rfl
  | succ n ih => intro l start v; rw [setRange, ih, List.length_set]

/-- The scanner loop preserves the highlight array's length. -/
theorem scanLoop_length (syn : SyntaxProfile) (render : List Char) :
    ∀ (fuel i : Nat) (hl : List Hl) (ps : Bool) (is0 : Char) (ic : Bool),
      ((scanLoop syn render fuel i hl ps is0 ic).1).length = hl.length := by
  intro fuel
  induction fuel with
  | zero => intros; rfl
  | succ fuel ih =>
    intro i hl ps is0 ic
    rw [scanLoop]
    repeat' split
    all_goals simp [ih, setRange_length, List.length_set]

/-- The highlight cascade of editorUpdateSyntax establishes row
consistency: starting from rows whose render forms are up to date and
whose highlight lengths are right everywhere except possibly at the
rescanned position, every row of the result is consistent.  The fuel
hypothesis reflects that the caller hands the cascade at least one
step per remaining row. -/
theorem updateSyntaxFrom_wf (syn : Option SyntaxProfile) (nr : Int) :
    ∀ (fuel : Nat) (rows : List Erow) (i : Nat),
      rows.length ≤ fuel + i →
      (∀ (j : Nat) (r : Erow), rows[j]? = some r → r.render = renderRow r.chars 0) →
      (∀ (j : Nat) (r : Erow), j ≠ i → rows[j]? = some r → r.hl.length = r.render.length) →
      ∀ (j : Nat) (r : Erow),
        (updateSyntaxFrom syn nr fuel rows i)[j]? = some r → WFrow r := by
  intro fuel
  induction fuel with
  | zero =>
    intro rows i hlen h1 h2 j r hr
    rw [updateSyntaxFrom] at hr
    refine ⟨h1 j r hr, h2 j r ?_ hr⟩
    intro hji
    subst hji
    rw [List.getElem?_eq_none (by omega)] at hr
    exact Option.noConfusion hr
  | succ fuel ih =>
    intro rows i hlen h1 h2 j r hr
    rw [updateSyntaxFrom] at hr
    split at hr
    · -- rows[i]? = none: the row list is unchanged
      rename_i hrow
      refine ⟨h1 j r hr, h2 j r ?_ hr⟩
      intro hji
      subst hji
      rw [hrow] at hr
      exact Option.noConfusion hr
    · rename_i row hrow
      have hi : i < rows.length := by
        by_contra hcon
        rw [List.getElem?_eq_none (by omega)] at hrow
        exact Option.noConfusion hrow
      split at hr
      · -- no syntax profile: only row i's highlight is zeroed
        rcases eq_or_ne j i with hj | hj
        · subst hj
          rw [List.getElem?_set_eq_of_lt _ hi] at hr
          cases hr
          exact ⟨h1 j row hrow, by simp⟩
        · rw [List.getElem?_set_ne (Ne.symm hj)] at hr
          exact ⟨h1 j r hr, h2 j r hj hr⟩
      · rename_i s hsyn
        split at hr
        · -- comment state changed: cascade to the next row
          refine ih _ (i + 1) ?_ ?_ ?_ j r hr
          · rw [List.length_set]; omega
          · intro j' r' hr'
            rcases eq_or_ne j' i with hj | hj
            · subst hj
              rw [List.getElem?_set_eq_of_lt _ hi] at hr'
              cases hr'
              exact h1 j' row hrow
            · rw [List.getElem?_set_ne (Ne.symm hj)] at hr'
              exact h1 j' r' hr'
          · intro j' r' hj1 hr'
            rcases eq_or_ne j' i with hj | hj
            · subst hj
              rw [List.getElem?_set_eq_of_lt _ hi] at hr'
              cases hr'
              simp [scanLoop_length]
            · rw [List.getElem?_set_ne (Ne.symm hj)] at hr'
              exact h2 j' r' hj hr'
        · -- no cascade: only row i's highlight was recomputed
          rcases eq_or_ne j i with hj | hj
          · subst hj
            rw [List.getElem?_set_eq_of_lt _ hi] at hr
            cases hr
            exact ⟨h1 j row hrow, by simp [scanLoop_length]⟩
          · rw [List.getElem?_set_ne (Ne.symm hj)] at hr
            exact ⟨h1 j r hr, h2 j r hj hr⟩

/-- editorUpdateRow establishes consistency of the updated row and
preserves consistency of every other row. -/
theorem editorUpdateRow_wf (syn : Option SyntaxProfile) (nr : Int)
    (rows : List Erow) (i : Nat)
    (h : ∀ (j : Nat) (r : Erow), j ≠ i → rows[j]? = some r → WFrow r) :
    ∀ (j : Nat) (r : Erow), (editorUpdateRow syn nr rows i)[j]? = some r → WFrow r := by
  intro j r hr
  rw [editorUpdateRow] at hr
  split at hr
  · rename_i hrow
    refine h j r ?_ hr
    intro hji
    subst hji
    rw [hrow] at hr
    exact Option.noConfusion hr
  · rename_i row hrow
    have hi : i < rows.length := by
      by_contra hcon
      rw [List.getElem?_eq_none (by omega)] at hrow
      exact Option.noConfusion hrow
    refine updateSyntaxFrom_wf syn nr _ _ i ?_ ?_ ?_ j r hr
    · rw [List.length_set]
      exact Nat.le_add_right _ _
    · intro j' r' hr'
      rcases eq_or_ne j' i with hj | hj
      · subst hj
        rw [List.getElem?_set_eq_of_lt _ hi] at hr'
        cases hr'
        rfl
      · rw [List.getElem?_set_ne (Ne.symm hj)] at hr'
        exact (h j' r' hj hr').1
    · intro j' r' hj hr'
      rw [List.getElem?_set_ne (Ne.symm hj)] at hr'
      exact (h j' r' hj hr').2

/-- The shared character-edit tail preserves buffer consistency. -/
theorem rowCharsEdit_wf (st : EditorConfig) (y : Int) (row : Erow)
    (cs : List Char) (h : WF st) : WF (rowCharsEdit st y row cs) := by
  intro j r hr
  refine editorUpdateRow_wf st.profile (st.rows.length : Int)
    (st.rows.set y.toNat { row with chars := cs }) y.toNat ?_ j r hr
  intro j' r' hj hr'
  rw [List.getElem?_set_ne (Ne.symm hj)] at hr'
  exact h j' r' hr'

/-- editorRowInsertChar preserves buffer consistency. -/
theorem editorRowInsertChar_wf (st : EditorConfig) (y atI : Int) (c : Char)
    (h : WF st) : WF (editorRowInsertChar st y atI c) := by
  rw [editorRowInsertChar]
  split
  · exact h
  · exact rowCharsEdit_wf st y _ _ h

/-- editorRowAppendString preserves buffer consistency. -/
theorem editorRowAppendString_wf (st : EditorConfig) (y : Int) (s : List Char)
    (h : WF st) : WF (editorRowAppendString st y s) := by
  rw [editorRowAppendString]
  split
  · exact h
  · exact rowCharsEdit_wf st y _ _ h

/-- editorRowDelChar preserves buffer consistency. -/
theorem editorRowDelChar_wf (st : EditorConfig) (y atI : Int)
    (h : WF st) : WF (editorRowDelChar st y atI) := by
  rw [editorRowDelChar]
  split
  · exact h
  · split
    · exact h
    · exact rowCharsEdit_wf st y _ _ h

/-- editorRowDelSpan preserves buffer consistency. -/
theorem editorRowDelSpan_wf (st : EditorConfig) (y start endI : Int)
    (h : WF st) : WF (editorRowDelSpan st y start endI) := by
  rw [editorRowDelSpan]
  split
  · exact h
  · split
    · exact h
    · exact rowCharsEdit_wf st y _ _ h

/-- editorInsertRow preserves buffer consistency: the spliced-in fresh
row gets a correct render and highlight from editorUpdateRow, and the
surrounding rows only change their index field. -/
theorem editorInsertRow_wf (st : EditorConfig) (atI : Int) (s : List Char)
    (h : WF st) : WF (editorInsertRow st atI s) := by
  rw [editorInsertRow]
  split
  · exact h
  · rename_i hguard
    intro j r hr
    refine editorUpdateRow_wf st.profile (st.rows.length : Int) _ atI.toNat ?_ j r hr
    intro j' r' hj hr'
    have hatn : atI.toNat ≤ st.rows.length := by omega
    rw [List.getElem?_append] at hr'
    split at hr'
    · -- j' indexes the unchanged prefix
      rename_i hlt
      rw [List.getElem?_take] at hr'
      split at hr'
      · exact h j' r' hr'
      · exact Option.noConfusion hr'
    · -- j' indexes the renumbered suffix
      rename_i hge
      have hjlen : (List.take atI.toNat st.rows).length = atI.toNat := by
        rw [List.length_take]
        omega
      rw [hjlen] at hr' hge
      have hpos : 1 ≤ j' - atI.toNat := by omega
      have hsucc : j' - atI.toNat = (j' - atI.toNat - 1) + 1 := by omega
      rw [hsucc, List.getElem?_cons_succ, List.getElem?_map, List.getElem?_drop] at hr'
      rcases Option.map_eq_some'.mp hr' with ⟨r0, h0, hre⟩
      have hwf := h _ r0 h0
      rw [← hre]
      exact hwf

/-- editorDelRow preserves buffer consistency: remaining rows only
change their index field. -/
theorem editorDelRow_wf (st : EditorConfig) (atI : Int)
    (h : WF st) : WF (editorDelRow st atI) := by
  rw [editorDelRow]
  split
  · exact h
  · intro j r hr
    rw [List.getElem?_append] at hr
    split at hr
    · rw [List.getElem?_take] at hr
      split at hr
      · exact h j r hr
      · exact Option.noConfusion hr
    · rw [List.getElem?_map, List.getElem?_drop] at hr
      rcases Option.map_eq_some'.mp hr with ⟨r0, h0, hre⟩
      have hwf := h _ r0 h0
      rw [← hre]
      exact hwf

/-- delRowsGo preserves buffer consistency. -/
theorem delRowsGo_wf (start : Int) :
    ∀ (n : Nat) (st : EditorConfig), WF st → WF (delRowsGo start n st) := by
  intro n
  induction n with
  | zero => intro st h; exact h
  | succ n ih =>
    intro st h
    rw [delRowsGo]
    exact ih _ (editorDelRow_wf st start h)

/-- editorDelRows preserves buffer consistency. -/
theorem editorDelRows_wf (st : EditorConfig) (start endI : Int)
    (h : WF st) : WF (editorDelRows st start endI) :=
  delRowsGo_wf start _ st h

/-- A cursor move never disturbs buffer consistency. -/
theorem wf_cursor (st : EditorConfig) (cx1 cy1 : Int) (h : WF st) :
    WF { st with cx := cx1, cy := cy1 } := h

/-- editorDelSpan preserves buffer consistency. -/
theorem editorDelSpan_wf (st : EditorConfig) (a b : Markpt)
    (h : WF st) : WF (editorDelSpan st a b) := by
  rw [editorDelSpan]
  dsimp only
  apply wf_cursor
  repeat' split
  all_goals
    first
    | (apply editorRowDelSpan_wf
       apply editorDelRows_wf
       first
       | exact editorRowDelSpan_wf _ _ _ _ h
       | exact editorDelRow_wf _ _ h)
    | (apply editorDelRow_wf
       first
       | exact h
       | (apply editorDelRows_wf
          first
          | exact editorRowDelSpan_wf _ _ _ _ h
          | exact editorDelRow_wf _ _ h))
    | exact editorRowDelSpan_wf _ _ _ _ h

/-- Every buffer mutation preserves buffer consistency. -/
theorem applyMutation_wf (st : EditorConfig) (m : Mutation)
    (h : WF st) : WF (applyMutation st m) := by
  cases m with
  | insRow atI s => exact editorInsertRow_wf st atI s h
  | delRow atI => exact editorDelRow_wf st atI h
  | insChar y atI c => exact editorRowInsertChar_wf st y atI c h
  | delChar y atI => exact editorRowDelChar_wf st y atI h
  | delSpanRow y s e => exact editorRowDelSpan_wf st y s e h
  | appendStr y s => exact editorRowAppendString_wf st y s h
  | delSpanM a b => exact editorDelSpan_wf st a b h

/-- Every sequence of buffer mutations preserves buffer consistency. -/
theorem applyMutations_wf (ms : List Mutation) :
    ∀ st : EditorConfig, WF st → WF (applyMutations st ms) := by
  induction ms with
  | nil => intro st h; exact h
  | cons m ms ih =>
    intro st h
    have h1 := ih (applyMutation st m) (applyMutation_wf st m h)
    simpa [applyMutations, List.foldl_cons] using h1

/-- C1: starting from any render/highlight-consistent buffer, after any
sequence of mutating operations (character insert/delete, span delete,
row insert/delete, append) every line's rendered length equals its raw
length plus the tab-expansion padding (each tab expanding to 1-4
spaces up to the next multiple of the tab stop 4, as tabPad computes),
and every line's highlight length equals its rendered length. -/
theorem c1_render_consistency (st : EditorConfig) (ms : List Mutation)
    (h : WF st) :
    ∀ (j : Nat) (r : Erow), (applyMutations st ms).rows[j]? = some r →
      r.render.length = r.chars.length + tabPad r.chars 0 ∧
      r.hl.length = r.render.length := by
  intro j r hr
  have hw := applyMutations_wf ms st h j r hr
  exact ⟨by rw [hw.1, length_renderRow], hw.2⟩

/-- C1 witness: the empty initial buffer is consistent, and after
inserting a row containing a tab every row satisfies the length
equations. -/
theorem c1_witness :
    WF initEditor ∧
    (∀ (j : Nat) (r : Erow), (applyMutations initEditor msC1).rows[j]? = some r →
      r.render.length = r.chars.length + tabPad r.chars 0 ∧
      r.hl.length = r.render.length) :=
  ⟨by intro j r hr; simp [initEditor] at hr,
    c1_render_consistency initEditor msC1
      (by intro j r hr; simp [initEditor] at hr)⟩

end Dim
